import Mathlib

/-!
Verification development for the Prism core standardization pipeline.

Shallow embedding of the Go sources:
  * value model        — pkg/core/domain (quarantine.go, aligner.go)
  * sanitizer          — pkg/core/services (ChainSanitizer.Clean)
  * cleaning rules     — pkg/core/services/rules (RangeRule),
                         internal/core/domain/rules.go (MonotonicRule)
  * aligner            — pkg/core/domain/aligner.go (TimeAligner.FindSnapshot)
  * standardizer       — pkg/core/services/standardizer.go
  * precision helpers  — internal/core/domain/unifier.go (MetricUnifier)

Modelling conventions:
  * `time.Time` / `time.Duration` values are nanosecond counts since the Go
    zero time, modelled as `Nat` (all wall-clock instants in the domain lie
    after the zero time; durations used by the pipeline are non-negative).
  * `float64` reading values are modelled as the exact rational value of the
    IEEE-754 double.  The rules and the sanitizer only compare values, and
    comparison of doubles agrees with comparison of the exact rationals.
    Where a claim depends on the rounding of a float64 product (the precision
    scaling), the correctly rounded product is modelled explicitly
    (`froundGrid` below) and evaluated at the concrete inputs in question.
  * Go string-typed enums (QualityState, ReadingType, IngestStrategy,
    QuarantineStatus, UpsertStrategy, RuleAction) are modelled as `String`
    with the wire values from the source.
  * `time.Now()` is passed in as an explicit `now : Nat` parameter.
  * `fmt.Sprintf` reason messages embed formatted numbers in Go; the numeric
    formatting is elided here and only the constant message text is kept
    (no claim depends on the formatted digits; the built-in deduplication
    reason "Duplicate timestamp" is kept verbatim).
-/

/-- DeviceInfo from pkg/core/domain: static device attributes. -/
structure DeviceInfo where
  id : String
  model : String
  type : String
deriving DecidableEq, Repr

/-- Reading from pkg/core/domain: one raw observation. -/
structure Reading where
  deviceInfo : DeviceInfo
  timestamp : Nat
  value : ℚ
deriving DecidableEq, Repr

/-- StandardReading from pkg/core/domain (fields as constructed by
pkg/core/services/standardizer.go standardizeOne, including the
backfill-governance fields IngestedAt and Priority). -/
structure StandardReading where
  deviceID : String
  timestamp : Nat
  valueScaled : ℤ
  scaleFactor : Nat
  valueDisplay : ℚ
  quality : String
  sourceType : String
  ingestedAt : Nat
  priority : ℤ
deriving DecidableEq, Repr

/-- QuarantineReading from pkg/core/domain/quarantine.go. -/
structure QuarantineReading where
  id : String
  reading : Reading
  reason : String
  ruleID : String
  createdAt : Nat
  updatedAt : Nat
  status : String
  batchID : String
deriving DecidableEq, Repr

/-- IngestContext from pkg/core/domain: request-scoped ingest metadata. -/
structure IngestContext where
  traceID : String
  strategy : String
  operator : String
  batchID : String
deriving DecidableEq, Repr

/-- IngestStrategy.GetPriority from pkg/core/domain/quarantine.go:
CALIBRATION=1000, REALTIME=100, BATCH_LATE=50, default 0. -/
def IngestStrategy.getPriority (s : String) : ℤ :=
  if s = "CALIBRATION" then 1000
  else if s = "REALTIME" then 100
  else if s = "BATCH_LATE" then 50
  else 0

/-- CleaningContext from pkg/core/ports/filter.go: the previous accepted
reading handed to a rule (nil for the first reading). -/
structure CleaningContext where
  previous : Option Reading

/-- CheckResult from pkg/core/ports/filter.go. -/
structure CheckResult where
  reading : Reading
  passed : Bool
  corrected : Bool
  reason : String

/-- CleaningRule from pkg/core/ports/filter.go: the strategy interface,
modelled as the function implementing `Check`. -/
def CleaningRule := CleaningContext → Reading → CheckResult

/-- RangeRule.Check from pkg/core/services/rules (part of the pkg rule set):
pass inside [min, max]; under action CORRECT clamp to the violated bound;
otherwise (REJECT / default) reject.  Numeric formatting of the reason
messages is elided. -/
def RangeRule.check (rmin rmax : ℚ) (action : String) : CleaningRule :=
  fun _ctx curr =>
    if rmin ≤ curr.value ∧ curr.value ≤ rmax then
      { reading := curr, passed := true, corrected := false, reason := "" }
    else if action = "CORRECT" then
      if curr.value < rmin then
        { reading := { curr with value := rmin }, passed := true,
          corrected := true, reason := "value corrected to min" }
      else
        { reading := { curr with value := rmax }, passed := true,
          corrected := true, reason := "value corrected to max" }
    else
      { reading := curr, passed := false, corrected := false,
        reason := "value out of range" }

/-- MonotonicRule.Check from internal/core/domain/rules.go (identical to the
copy in the rules package): reject a negative value, then reject a value
below the previous accepted value; the error is nil exactly when the check
passes.  Numeric formatting of the messages is elided. -/
def MonotonicRule.check (prev : Option Reading) (curr : Reading) :
    Bool × Option String :=
  if curr.value < 0 then (false, some "negative value")
  else
    match prev with
    | some p =>
        if curr.value < p.value then (false, some "value regression")
        else (true, none)
    | none => (true, none)

/-! ### The sanitizer's sort

`ChainSanitizer.Clean` first sorts the batch by timestamp
(`sort.Slice(readings, func(i, j) { return t_i.Before(t_j) })`).
The specification prescribes a stable sort and declares the order of equal
timestamps unspecified-but-stable; Go's sort is plain insertion sort (hence
stable) on the small slices used everywhere in this development.  The sort
is embedded as a structurally recursive stable insertion sort on the strict
`Before` comparison, so that all proofs and concrete evaluations are kernel
computable. -/

/-- Insert a reading into a time-sorted list, before the first element that
is not strictly earlier (stable insertion for the Before comparison). -/
def insertByTime (r : Reading) : List Reading → List Reading
  | [] => [r]
  | x :: xs =>
      if x.timestamp < r.timestamp then x :: insertByTime r xs
      else r :: x :: xs

/-- Stable sort by ascending timestamp (the sanitizer's preprocessing). -/
def sortByTime (l : List Reading) : List Reading :=
  l.foldr insertByTime []

/-- The (DeviceID, Timestamp) identity of a reading — the key used by the
built-in deduplication and by the persistence conflict rules. -/
def readingKey (r : Reading) : String × Nat :=
  (r.deviceInfo.id, r.timestamp)

/-- The built-in deduplication test of ChainSanitizer.Clean:
prev ≠ nil ∧ prev.DeviceID = curr.DeviceID ∧ prev.Timestamp = curr.Timestamp. -/
def dedupHit (prev : Option Reading) (curr : Reading) : Bool :=
  match prev with
  | some p =>
      decide (p.deviceInfo.id = curr.deviceInfo.id ∧ p.timestamp = curr.timestamp)
  | none => false

/-- The QuarantineReading built for a duplicate timestamp in
ChainSanitizer.Clean (unset fields take Go zero values). -/
def mkDupQuarantine (now : Nat) (curr : Reading) : QuarantineReading :=
  { id := "", reading := curr, reason := "Duplicate timestamp", ruleID := "",
    createdAt := now, updatedAt := 0, status := "PENDING", batchID := "" }

/-- The QuarantineReading built for a rule rejection in
ChainSanitizer.Clean (unset fields take Go zero values). -/
def mkRejectQuarantine (now : Nat) (curr : Reading) (failReason : String) :
    QuarantineReading :=
  { id := "", reading := curr, reason := failReason, ruleID := "",
    createdAt := now, updatedAt := 0, status := "PENDING", batchID := "" }

/-- The rule-chain loop of ChainSanitizer.Clean: run the rules in order on a
working copy, carrying corrections into later rules, stopping at the first
failure.  Returns (passed, failReason, final working reading). -/
def runChain : List CleaningRule → CleaningContext → Reading →
    Bool × String × Reading
  | [], _, tempReading => (true, "", tempReading)
  | rule :: rest, cleanCtx, tempReading =>
      let result := rule cleanCtx tempReading
      if result.passed then runChain rest cleanCtx result.reading
      else (false, result.reason, result.reading)

/-- The main loop of ChainSanitizer.Clean over the sorted batch, threading
`prev` (the last reading appended to clean).  Beyond the two outputs of the
Go function this embedding also returns an instrumentation trace: one entry
`(acc, prev, curr)` per reading that reaches the rule chain, recording the
readings accepted so far (`acc`), the CleaningContext.Previous handed to the
chain, and the current reading.  The trace is not part of the Go code; it
only makes the contexts observable for the theorems below. -/
def ChainSanitizer.cleanWalk (rules : List CleaningRule) (now : Nat)
    (acc : List Reading) (prev : Option Reading) :
    List Reading →
      List Reading × List QuarantineReading ×
        List (List Reading × Option Reading × Reading)
  | [] => ([], [], [])
  | curr :: rest =>
      if dedupHit prev curr then
        let r := ChainSanitizer.cleanWalk rules now acc prev rest
        (r.1, mkDupQuarantine now curr :: r.2.1, r.2.2)
      else
        let chainRes := runChain rules { previous := prev } curr
        if chainRes.1 then
          let r := ChainSanitizer.cleanWalk rules now (acc ++ [chainRes.2.2])
            (some chainRes.2.2) rest
          (chainRes.2.2 :: r.1, r.2.1, (acc, prev, curr) :: r.2.2)
        else
          let r := ChainSanitizer.cleanWalk rules now acc prev rest
          (r.1, mkRejectQuarantine now curr chainRes.2.1 :: r.2.1,
            (acc, prev, curr) :: r.2.2)

/-- ChainSanitizer.Clean from pkg/core/services: nil outputs on an empty
batch, otherwise sort by time and walk the rule chain with built-in
deduplication.  Returns (clean, quarantined). -/
def ChainSanitizer.clean (rules : List CleaningRule) (now : Nat)
    (readings : List Reading) : List Reading × List QuarantineReading :=
  if readings.isEmpty then ([], [])
  else
    let r := ChainSanitizer.cleanWalk rules now [] none (sortByTime readings)
    (r.1, r.2.1)

/-- The instrumentation trace of ChainSanitizer.Clean (see cleanWalk). -/
def ChainSanitizer.cleanTrace (rules : List CleaningRule) (now : Nat)
    (readings : List Reading) :
    List (List Reading × Option Reading × Reading) :=
  if readings.isEmpty then []
  else (ChainSanitizer.cleanWalk rules now [] none (sortByTime readings)).2.2

/-! ### Aligner (pkg/core/domain/aligner.go) -/

/-- absDuration(a.Sub(b)): the absolute timestamp difference. -/
def absDiff (a b : Nat) : Nat := max a b - min a b

/-- One iteration of the candidate loop in TimeAligner.FindSnapshot: indices
outside [0, len) are skipped; a candidate replaces the current best when its
difference is within tolerance and strictly smaller than the best so far. -/
def TimeAligner.consider (tolerance : Nat) (readings : List Reading)
    (target : Nat) (st : Option Reading × Nat) (i : ℤ) :
    Option Reading × Nat :=
  if h : 0 ≤ i ∧ i < (readings.length : ℤ) then
    let r := readings.get ⟨i.toNat, by omega⟩
    let diff := absDiff r.timestamp target
    if diff ≤ tolerance ∧ diff < st.2 then (some r, diff) else st
  else st

/-- TimeAligner.FindSnapshot from pkg/core/domain/aligner.go: binary-search
the first index with Timestamp ≥ target (`sort.Search`, embedded by its
specified result `findIdx` on the sorted input), then examine candidates
idx−1 and idx in that order, starting from minDiff = Tolerance + 1. -/
def TimeAligner.findSnapshot (tolerance : Nat) (readings : List Reading)
    (target : Nat) : Option Reading :=
  if readings.isEmpty then none
  else
    let idx : ℤ := readings.findIdx fun r => decide (target ≤ r.timestamp)
    (TimeAligner.consider tolerance readings target
      (TimeAligner.consider tolerance readings target (none, tolerance + 1)
        (idx - 1)) idx).1

/-! ### Precision conversion -/

/-- DefaultScaleFactor from pkg/core/services/standardizer.go. -/
def DefaultScaleFactor : Nat := 10000

/-- Go's int64(x) conversion on a float value: truncation toward zero,
on the exact rational value of the float. -/
def int64Trunc (q : ℚ) : ℤ := q.num.tdiv (q.den : ℤ)

/-- The scaled value computed by standardizeOne in
pkg/core/services/standardizer.go: `int64(r.Value * float64(10000))`,
i.e. truncation toward zero of the product.  The product is taken exactly
here (`(q.num * 10000).tdiv q.den` is the truncation of the exact product
q·10000); the rounding of the float64 product is modelled explicitly in the
precision section below and shown to truncate to the same integer at the
input the precision claims are about. -/
def int64Scale (q : ℚ) : ℤ := (q.num * (DefaultScaleFactor : ℤ)).tdiv (q.den : ℤ)

/-- math.Round: nearest integer, rounding half away from zero. -/
def roundHalfAway (q : ℚ) : ℤ :=
  if 0 ≤ q then ⌊q + (1 : ℚ) / 2⌋ else -⌊-q + (1 : ℚ) / 2⌋

/-- MetricUnifier.ToScaled from internal/core/domain/unifier.go:
`int64(math.Round(val * float64(u.Factor)))` (exact product; the float64
product rounding is analysed separately in the precision section). -/
def MetricUnifier.toScaled (factor : Nat) (val : ℚ) : ℤ :=
  roundHalfAway (val * (factor : ℚ))

/-- MetricUnifier.FromScaled from internal/core/domain/unifier.go. -/
def MetricUnifier.fromScaled (factor : Nat) (val : ℤ) : ℚ :=
  (val : ℚ) / (factor : ℚ)

/-! ### IEEE-754 binade rounding model

`froundGrid ulp q` rounds the exact rational q to the nearest multiple of
`ulp` with ties to even — the IEEE-754 round-to-nearest-even result for a
value whose binade has unit-in-the-last-place `ulp`.  The claims that need
float64 results are evaluated at concrete inputs together with a proof that
the input lies in the binade matching the `ulp` used. -/

/-- Nearest integer with ties to even. -/
def roundTiesToEven (q : ℚ) : ℤ :=
  if q - ⌊q⌋ < (1 : ℚ) / 2 then ⌊q⌋
  else if (1 : ℚ) / 2 < q - ⌊q⌋ then ⌊q⌋ + 1
  else if ⌊q⌋ % 2 = 0 then ⌊q⌋ else ⌊q⌋ + 1

/-- Round q to the nearest multiple of ulp, ties to even. -/
def froundGrid (ulp : ℚ) (q : ℚ) : ℚ := (roundTiesToEven (q / ulp) : ℚ) * ulp

/-- The exact rational value of the float64 literal 100.00019
(the nearest double to the decimal, in the binade [2^6, 2^7) where
ulp = 2^-46): 7036887787827794 · 2^-46 = 3518443893913897 / 2^45. -/
def float100_00019 : ℚ := 3518443893913897 / 35184372088832

/-- The exact rational value of the float64 product 100.00019 * 10000
(correctly rounded in the binade [2^19, 2^20) where ulp = 2^-33):
8589950912875725 / 2^33 = 1000001.9000000000232831…. -/
def floatProd100_00019 : ℚ := 8589950912875725 / 8589934592

/-! ### Standardizer (pkg/core/services/standardizer.go) -/

/-- The priority stamped by standardizeOne: the REALTIME default when no
IngestContext is attached to the ambient context, otherwise the priority of
the context's strategy. -/
def contextPriority (octx : Option IngestContext) : ℤ :=
  match octx with
  | some info => IngestStrategy.getPriority info.strategy
  | none => IngestStrategy.getPriority "REALTIME"

/-- standardizeOne from pkg/core/services/standardizer.go: single-reading
mapping to a StandardReading (priority from the ambient context, truncating
precision scaling, Quality VALID, SourceType STANDARD). -/
def standardizeOne (octx : Option IngestContext) (now : Nat) (r : Reading) :
    StandardReading :=
  { deviceID := r.deviceInfo.id
    timestamp := r.timestamp
    valueScaled := int64Scale r.value
    scaleFactor := DefaultScaleFactor
    valueDisplay := r.value
    sourceType := "STANDARD"
    quality := "VALID"
    ingestedAt := now
    priority := contextPriority octx }

/-- time.Time.Truncate(d) for an instant t (both as nanoseconds since the
zero time): rounding down to a multiple of d; d = 0 returns t unchanged
(Go returns t unchanged for d ≤ 0). -/
def timeTruncate (t d : Nat) : Nat := if d = 0 then t else t - t % d

/-- The grid-ceiling computation of ProcessAndStandardize: endTime rounds up
to the next grid point unless it already lies on the grid. -/
def gridCeil (e d : Nat) : Nat :=
  if 0 < e - timeTruncate e d then timeTruncate e d + d else timeTruncate e d

/-- The grid points visited by
`for t := startTime; !t.After(endTime); t = t.Add(interval)`
(requires start ≤ stop, which ProcessAndStandardize guarantees). -/
def gridPoints (start stop step : Nat) : List Nat :=
  (List.range ((stop - start) / step + 1)).map fun k => start + k * step

/-- The per-shard sorted view (`sort.Slice` inside the shard worker; the
same stable insertion sort model as the sanitizer's). -/
def sortedShard (devReadings : List Reading) : List Reading :=
  sortByTime devReadings

/-- gridStart of a device shard: floor of the earliest timestamp. -/
def gridStartD (interval : Nat) (devReadings : List Reading) : Nat :=
  match sortedShard devReadings with
  | [] => 0
  | h :: _ => timeTruncate h.timestamp interval

/-- gridEnd of a device shard: ceiling of the latest timestamp
(the latest timestamp itself when already on the grid). -/
def gridEndD (interval : Nat) (devReadings : List Reading) : Nat :=
  match sortedShard devReadings with
  | [] => 0
  | h :: t => gridCeil (((h :: t).getLast (List.cons_ne_nil h t)).timestamp) interval

/-- The body of one shard worker in ProcessAndStandardize (the cancellation
check is modelled at the ProcessAndStandardize level): sort the shard,
derive the grid, and for each grid point emit the aligned snapshot as a
StandardReading with its Timestamp forced to the grid point. -/
def processShard (interval tolerance : Nat) (octx : Option IngestContext)
    (now : Nat) (devReadings : List Reading) : List StandardReading :=
  match sortedShard devReadings with
  | [] => []
  | h :: t =>
      (gridPoints (gridStartD interval devReadings)
          (gridEndD interval devReadings) interval).filterMap fun g =>
        (TimeAligner.findSnapshot tolerance (h :: t) g).map fun snap =>
          { standardizeOne octx now snap with timestamp := g }

/-- The pure computation of ProcessAndStandardize (no repository, no
cancellation): sanitize, shard by DeviceID, process every shard, gather.
Go iterates the shard map in unspecified order; shards are gathered here in
first-occurrence order of the device ids — all properties proved below are
insensitive to the gathering order. -/
def processAndStandardize (rules : List CleaningRule)
    (octx : Option IngestContext) (interval tolerance now : Nat)
    (rawReadings : List Reading) : List StandardReading :=
  let cleanReadings := (ChainSanitizer.clean rules now rawReadings).1
  ((cleanReadings.map fun r => r.deviceInfo.id).dedup).flatMap fun d =>
    processShard interval tolerance octx now
      (cleanReadings.filter fun r => r.deviceInfo.id = d)

/-- The device shard of ProcessAndStandardize for device id d: the clean
readings of that device, in clean-output order. -/
def shardOf (rules : List CleaningRule) (now : Nat)
    (rawReadings : List Reading) (d : String) : List Reading :=
  ((ChainSanitizer.clean rules now rawReadings).1).filter
    fun r => r.deviceInfo.id = d

/-- The errors ProcessAndStandardize can return. -/
inductive PipelineError where
  | cancelled
  | persistFailed
deriving DecidableEq, Repr

/-- One SaveBatch invocation on the standard-reading repository, with the
UpsertStrategy wire value it was given. -/
structure SaveCall where
  readings : List StandardReading
  strategy : String
deriving DecidableEq, Repr

/-- ProcessAndStandardize from pkg/core/services/standardizer.go with its
effects made explicit:
  * `cancelled` models whether the ambient context is cancelled (the shard
    workers check it on every grid step; with a cancelled context every
    non-empty shard records ctx.Err() and the aggregated error is returned
    with nil standards);
  * `repo` models the optional StandardReadingRepository: `some save` is a
    configured repository whose SaveBatch succeeds iff `save batch = true`;
  * the returned triple is (the standards return value — `none` is Go's nil
    slice on the error paths, the error return value, the list of SaveBatch
    calls made).
The asynchronous quarantine flush (detached context, log-only failures) has
no effect on the return values and is not modelled. -/
def processFull (rules : List CleaningRule) (octx : Option IngestContext)
    (interval tolerance now : Nat) (cancelled : Bool)
    (repo : Option (List StandardReading → Bool))
    (rawReadings : List Reading) :
    Option (List StandardReading) × Option PipelineError × List SaveCall :=
  let cleanReadings := (ChainSanitizer.clean rules now rawReadings).1
  if cancelled ∧ cleanReadings ≠ [] then (none, some .cancelled, [])
  else
    let standards := processAndStandardize rules octx interval tolerance now
      rawReadings
    match repo with
    | none => (some standards, none, [])
    | some save =>
        if standards = [] then (some standards, none, [])
        else if save standards then
          (some standards, none, [⟨standards, "HIGH_PRIORITY_WINS"⟩])
        else (none, some .persistFailed, [⟨standards, "HIGH_PRIORITY_WINS"⟩])

/-! ## Helper lemmas: the stable sort -/

/-- Inserting permutes to consing. -/
theorem insertByTime_perm (r : Reading) (l : List Reading) :
    (insertByTime r l).Perm (r :: l) := by
  induction l with
  | nil => simp [insertByTime]
  | cons x xs ih =>
      by_cases h : x.timestamp < r.timestamp
      · simpa [insertByTime, h] using
          ((ih.cons x).trans (List.Perm.swap r x xs))
      · simp [insertByTime, h]

/-- The sanitizer's sort is a permutation of its input. -/
theorem sortByTime_perm (l : List Reading) : (sortByTime l).Perm l := by
  induction l with
  | nil => simp [sortByTime]
  | cons x xs ih =>
      exact (insertByTime_perm x (sortByTime xs)).trans (ih.cons x)

theorem mem_sortByTime {r : Reading} {l : List Reading} :
    r ∈ sortByTime l ↔ r ∈ l := (sortByTime_perm l).mem_iff

/-- Insertion preserves ascending-timestamp order. -/
theorem insertByTime_pairwise {r : Reading} {l : List Reading}
    (h : l.Pairwise fun a b => a.timestamp ≤ b.timestamp) :
    (insertByTime r l).Pairwise fun a b => a.timestamp ≤ b.timestamp := by
  induction l with
  | nil => simp [insertByTime]
  | cons x xs ih =>
      rcases List.pairwise_cons.mp h with ⟨hx, hxs⟩
      by_cases hlt : x.timestamp < r.timestamp
      · simp only [insertByTime, if_pos hlt]
        refine List.pairwise_cons.mpr ⟨?_, ih hxs⟩
        intro y hy
        rcases List.mem_cons.mp ((insertByTime_perm r xs).mem_iff.mp hy) with
          hy | hy
        · subst hy; omega
        · exact hx y hy
      · simp only [insertByTime, if_neg hlt]
        refine List.pairwise_cons.mpr ⟨?_, h⟩
        intro y hy
        rcases List.mem_cons.mp hy with hy | hy
        · subst hy; omega
        · exact le_trans (by omega) (hx y hy)

/-- The sanitizer's sort output is ascending by timestamp. -/
theorem sortByTime_pairwise (l : List Reading) :
    (sortByTime l).Pairwise fun a b => a.timestamp ≤ b.timestamp := by
  induction l with
  | nil => simp [sortByTime]
  | cons x xs ih => exact insertByTime_pairwise ih

/-! ## Helper lemmas: the rule chain -/

/-- When every rule preserves the (DeviceID, Timestamp) key, so does the
whole chain. -/
theorem runChain_key {rules : List CleaningRule}
    (hkeys : ∀ rule ∈ rules, ∀ ctx r, readingKey ((rule ctx r).reading) = readingKey r)
    (ctx : CleaningContext) (r : Reading) :
    readingKey (runChain rules ctx r).2.2 = readingKey r := by
  induction rules generalizing r with
  | nil => simp [runChain]
  | cons rule rest ih =>
      have hr := hkeys rule (by simp) ctx r
      by_cases hp : (rule ctx r).passed
      · have := ih (fun q hq => hkeys q (by simp [hq]) ) ((rule ctx r).reading)
        simp only [runChain, hp, if_true]
        rw [this, hr]
      · simp [runChain, hp, hr]

/-- When every rule reports a non-empty reason on failure, a failing chain
reports a non-empty reason. -/
theorem runChain_reason {rules : List CleaningRule}
    (hreason : ∀ rule ∈ rules, ∀ ctx r,
      (rule ctx r).passed = false → (rule ctx r).reason ≠ "")
    (ctx : CleaningContext) (r : Reading)
    (hfail : (runChain rules ctx r).1 = false) :
    (runChain rules ctx r).2.1 ≠ "" := by
  induction rules generalizing r with
  | nil => simp [runChain] at hfail
  | cons rule rest ih =>
      by_cases hp : (rule ctx r).passed
      · simp only [runChain, hp, if_true] at hfail ⊢
        exact ih (fun q hq => hreason q (by simp [hq])) _ hfail
      · simp only [runChain, hp, if_false] at hfail ⊢
        exact hreason rule (by simp) ctx r (by simpa using hp)

/-! ## Helper lemmas: the sanitizer loop -/

theorem cleanWalk_nil (rules : List CleaningRule) (now : Nat)
    (acc : List Reading) (prev : Option Reading) :
    ChainSanitizer.cleanWalk rules now acc prev [] = ([], [], []) := rfl

theorem cleanWalk_cons_dedup {rules : List CleaningRule} {now : Nat}
    {acc : List Reading} {prev : Option Reading} {curr : Reading}
    {rest : List Reading} (hd : dedupHit prev curr = true) :
    ChainSanitizer.cleanWalk rules now acc prev (curr :: rest) =
      ((ChainSanitizer.cleanWalk rules now acc prev rest).1,
        mkDupQuarantine now curr ::
          (ChainSanitizer.cleanWalk rules now acc prev rest).2.1,
        (ChainSanitizer.cleanWalk rules now acc prev rest).2.2) := by
  simp [ChainSanitizer.cleanWalk, hd]

theorem cleanWalk_cons_pass {rules : List CleaningRule} {now : Nat}
    {acc : List Reading} {prev : Option Reading} {curr : Reading}
    {rest : List Reading} (hd : dedupHit prev curr = false)
    (hp : (runChain rules ⟨prev⟩ curr).1 = true) :
    ChainSanitizer.cleanWalk rules now acc prev (curr :: rest) =
      ((runChain rules ⟨prev⟩ curr).2.2 ::
          (ChainSanitizer.cleanWalk rules now
            (acc ++ [(runChain rules ⟨prev⟩ curr).2.2])
            (some (runChain rules ⟨prev⟩ curr).2.2) rest).1,
        (ChainSanitizer.cleanWalk rules now
          (acc ++ [(runChain rules ⟨prev⟩ curr).2.2])
          (some (runChain rules ⟨prev⟩ curr).2.2) rest).2.1,
        (acc, prev, curr) ::
          (ChainSanitizer.cleanWalk rules now
            (acc ++ [(runChain rules ⟨prev⟩ curr).2.2])
            (some (runChain rules ⟨prev⟩ curr).2.2) rest).2.2) := by
  simp [ChainSanitizer.cleanWalk, hd, hp]

theorem cleanWalk_cons_fail {rules : List CleaningRule} {now : Nat}
    {acc : List Reading} {prev : Option Reading} {curr : Reading}
    {rest : List Reading} (hd : dedupHit prev curr = false)
    (hp : (runChain rules ⟨prev⟩ curr).1 = false) :
    ChainSanitizer.cleanWalk rules now acc prev (curr :: rest) =
      ((ChainSanitizer.cleanWalk rules now acc prev rest).1,
        mkRejectQuarantine now curr (runChain rules ⟨prev⟩ curr).2.1 ::
          (ChainSanitizer.cleanWalk rules now acc prev rest).2.1,
        (acc, prev, curr) ::
          (ChainSanitizer.cleanWalk rules now acc prev rest).2.2) := by
  simp [ChainSanitizer.cleanWalk, hd, hp]

/-- Key-level conservation of the sanitizer loop: the keys of the accepted
readings together with the keys of the quarantined snapshots are a
permutation of the keys of the processed input. -/
theorem cleanWalk_perm {rules : List CleaningRule}
    (hkeys : ∀ rule ∈ rules, ∀ ctx r,
      readingKey ((rule ctx r).reading) = readingKey r)
    (now : Nat) (l : List Reading) (acc : List Reading)
    (prev : Option Reading) :
    ((ChainSanitizer.cleanWalk rules now acc prev l).1.map readingKey ++
      (ChainSanitizer.cleanWalk rules now acc prev l).2.1.map
        (fun q => readingKey q.reading)).Perm (l.map readingKey) := by
  induction l generalizing acc prev with
  | nil => simp [cleanWalk_nil]
  | cons curr rest ih =>
      by_cases hd : dedupHit prev curr = true
      · rw [cleanWalk_cons_dedup hd]
        simp only [List.map_cons, mkDupQuarantine]
        exact List.perm_middle.trans ((ih acc prev).cons (readingKey curr))
      · rcases Bool.eq_false_or_eq_true (runChain rules ⟨prev⟩ curr).1 with
          hp | hp
        · rw [cleanWalk_cons_pass (by simpa using hd) hp]
          simp only [List.map_cons, runChain_key hkeys]
          exact (ih _ _).cons (readingKey curr)
        · rw [cleanWalk_cons_fail (by simpa using hd) hp]
          simp only [List.map_cons, mkRejectQuarantine]
          exact List.perm_middle.trans ((ih acc prev).cons (readingKey curr))

/-- Every quarantine record produced by the sanitizer loop carries a
non-empty reason, provided every rule reports a non-empty reason when it
fails (the built-in deduplication reason is the constant
"Duplicate timestamp"). -/
theorem cleanWalk_reasons {rules : List CleaningRule}
    (hreason : ∀ rule ∈ rules, ∀ ctx r,
      (rule ctx r).passed = false → (rule ctx r).reason ≠ "")
    (now : Nat) (l : List Reading) (acc : List Reading)
    (prev : Option Reading) :
    ∀ q ∈ (ChainSanitizer.cleanWalk rules now acc prev l).2.1,
      q.reason ≠ "" := by
  induction l generalizing acc prev with
  | nil => simp [cleanWalk_nil]
  | cons curr rest ih =>
      by_cases hd : dedupHit prev curr = true
      · rw [cleanWalk_cons_dedup hd]
        intro q hq
        rcases List.mem_cons.mp hq with hq | hq
        · subst hq; simp [mkDupQuarantine]
        · exact ih acc prev q hq
      · rcases Bool.eq_false_or_eq_true (runChain rules ⟨prev⟩ curr).1 with
          hp | hp
        · rw [cleanWalk_cons_pass (by simpa using hd) hp]
          exact ih _ _
        · rw [cleanWalk_cons_fail (by simpa using hd) hp]
          intro q hq
          rcases List.mem_cons.mp hq with hq | hq
          · subst hq
            simpa [mkRejectQuarantine] using
              runChain_reason hreason ⟨prev⟩ curr hp
          · exact ih acc prev q hq

/-- The keys of the accepted readings form a sublist of the keys of the
processed input (acceptance never reorders, duplicates or re-keys). -/
theorem cleanWalk_keys_sublist {rules : List CleaningRule}
    (hkeys : ∀ rule ∈ rules, ∀ ctx r,
      readingKey ((rule ctx r).reading) = readingKey r)
    (now : Nat) (l : List Reading) (acc : List Reading)
    (prev : Option Reading) :
    ((ChainSanitizer.cleanWalk rules now acc prev l).1.map
      readingKey).Sublist (l.map readingKey) := by
  induction l generalizing acc prev with
  | nil => simp [cleanWalk_nil]
  | cons curr rest ih =>
      by_cases hd : dedupHit prev curr = true
      · rw [cleanWalk_cons_dedup hd]
        exact (ih acc prev).trans (List.sublist_cons_self _ _)
      · rcases Bool.eq_false_or_eq_true (runChain rules ⟨prev⟩ curr).1 with
          hp | hp
        · rw [cleanWalk_cons_pass (by simpa using hd) hp]
          simp only [List.map_cons, runChain_key hkeys]
          exact (ih _ _).cons₂ (readingKey curr)
        · rw [cleanWalk_cons_fail (by simpa using hd) hp]
          exact (ih acc prev).trans (List.sublist_cons_self _ _)

/-- Adjacent accepted readings never share a (DeviceID, Timestamp) key:
the deduplication guard relates each accepted reading to the previous one,
threaded through `prev`. -/
theorem cleanWalk_chain {rules : List CleaningRule}
    (hkeys : ∀ rule ∈ rules, ∀ ctx r,
      readingKey ((rule ctx r).reading) = readingKey r)
    (now : Nat) (l : List Reading) (acc : List Reading)
    (prev : Option Reading) :
    List.Chain' (fun a b => readingKey a ≠ readingKey b)
      (prev.toList ++ (ChainSanitizer.cleanWalk rules now acc prev l).1) := by
  induction l generalizing acc prev with
  | nil => cases prev <;> simp [cleanWalk_nil]
  | cons curr rest ih =>
      by_cases hd : dedupHit prev curr = true
      · rw [cleanWalk_cons_dedup hd]
        exact ih acc prev
      · rcases Bool.eq_false_or_eq_true (runChain rules ⟨prev⟩ curr).1 with
          hp | hp
        · rw [cleanWalk_cons_pass (by simpa using hd) hp]
          have hrec := ih (acc ++ [(runChain rules ⟨prev⟩ curr).2.2])
            (some (runChain rules ⟨prev⟩ curr).2.2)
          simp only [Option.toList_some, List.singleton_append] at hrec
          cases prev with
          | none => simpa using hrec
          | some p =>
              simp only [Option.toList_some, List.singleton_append]
              refine List.chain'_cons.mpr ⟨?_, hrec⟩
              rw [runChain_key hkeys]
              intro hcontra
              have : p.deviceInfo.id = curr.deviceInfo.id ∧
                  p.timestamp = curr.timestamp := by
                simpa [readingKey, Prod.ext_iff] using hcontra
              simp [dedupHit, this.1, this.2] at hd
        · rw [cleanWalk_cons_fail (by simpa using hd) hp]
          exact ih acc prev

/-- The instrumentation-trace invariant: in every context handed to the rule
chain, Previous is exactly the most recently accepted reading so far (of any
device), and the accepted-so-far list extends the accumulator and prefixes
the final clean output. -/
theorem cleanWalk_trace {rules : List CleaningRule} (now : Nat)
    (l : List Reading) (acc : List Reading) (prev : Option Reading)
    (hprev : prev = acc.getLast?) :
    ∀ e ∈ (ChainSanitizer.cleanWalk rules now acc prev l).2.2,
      e.2.1 = e.1.getLast? ∧
        ∃ s t2, e.1 = acc ++ s ∧
          (ChainSanitizer.cleanWalk rules now acc prev l).1 = s ++ t2 := by
  induction l generalizing acc prev with
  | nil => simp [cleanWalk_nil]
  | cons curr rest ih =>
      by_cases hd : dedupHit prev curr = true
      · rw [cleanWalk_cons_dedup hd]
        exact ih acc prev hprev
      · rcases Bool.eq_false_or_eq_true (runChain rules ⟨prev⟩ curr).1 with
          hp | hp
        · rw [cleanWalk_cons_pass (by simpa using hd) hp]
          intro e he
          rcases List.mem_cons.mp he with he | he
          · subst he
            refine ⟨hprev, [], _, by simp, rfl⟩
          · have hrec := ih (acc ++ [(runChain rules ⟨prev⟩ curr).2.2])
              (some (runChain rules ⟨prev⟩ curr).2.2)
              (by rw [List.getLast?_concat]) e he
            refine ⟨hrec.1, ?_⟩
            rcases hrec.2 with ⟨s, t2, hs, ht⟩
            exact ⟨(runChain rules ⟨prev⟩ curr).2.2 :: s, t2,
              by simpa [List.append_assoc] using hs, by simp [ht]⟩
        · rw [cleanWalk_cons_fail (by simpa using hd) hp]
          intro e he
          rcases List.mem_cons.mp he with he | he
          · subst he
            refine ⟨hprev, [], _, by simp, rfl⟩
          · exact ih acc prev hprev e he

/-! ## Helper lemmas: the aligner -/

theorem consider_neg {tolerance : Nat} {readings : List Reading}
    {target : Nat} {st : Option Reading × Nat} {i : ℤ}
    (h : ¬(0 ≤ i ∧ i < (readings.length : ℤ))) :
    TimeAligner.consider tolerance readings target st i = st := by
  rw [TimeAligner.consider, dif_neg h]

theorem consider_pos {tolerance : Nat} {readings : List Reading}
    {target : Nat} {st : Option Reading × Nat} {i : ℤ}
    (h : 0 ≤ i ∧ i < (readings.length : ℤ))
    (hnat : i.toNat < readings.length) :
    TimeAligner.consider tolerance readings target st i =
      if absDiff (readings.get ⟨i.toNat, hnat⟩).timestamp target ≤ tolerance ∧
          absDiff (readings.get ⟨i.toNat, hnat⟩).timestamp target < st.2 then
        (some (readings.get ⟨i.toNat, hnat⟩),
          absDiff (readings.get ⟨i.toNat, hnat⟩).timestamp target)
      else st := by
  rw [TimeAligner.consider, dif_pos h]

/-- FindSnapshot only ever returns an element of its input. -/
theorem findSnapshot_mem {tolerance : Nat} {readings : List Reading}
    {target : Nat} {r : Reading}
    (h : TimeAligner.findSnapshot tolerance readings target = some r) :
    r ∈ readings := by
  have haux : ∀ (st : Option Reading × Nat) (i : ℤ),
      (st.1 = some r → r ∈ readings) →
      ((TimeAligner.consider tolerance readings target st i).1 = some r →
        r ∈ readings) := by
    intro st i hst
    by_cases hv : 0 ≤ i ∧ i < (readings.length : ℤ)
    · have hnat : i.toNat < readings.length := by omega
      rw [consider_pos hv hnat]
      by_cases hc : absDiff (readings.get ⟨i.toNat, hnat⟩).timestamp target ≤
          tolerance ∧
          absDiff (readings.get ⟨i.toNat, hnat⟩).timestamp target < st.2
      · rw [if_pos hc]
        intro hr
        have : readings.get ⟨i.toNat, hnat⟩ = r := by
          simpa using hr
        rw [← this]
        exact readings.get_mem _ _
      · rw [if_neg hc]; exact hst
    · rw [consider_neg hv]; exact hst
  by_cases hE : readings.isEmpty = true
  · rw [TimeAligner.findSnapshot, if_pos hE] at h
    exact absurd h (by simp)
  · rw [TimeAligner.findSnapshot, if_neg hE] at h
    exact haux _ _ (haux _ _ (by simp)) h

/-- The contract of FindSnapshot on a sorted batch: a returned reading is an
element of the batch, lies within Tolerance of the target, has minimal
absolute difference to the target, and on an exact distance tie the earlier
timestamp is returned; a nil result means no reading lies within Tolerance. -/
def AlignerSpec (tolerance : Nat) (readings : List Reading) (target : Nat) :
    Prop :=
  match TimeAligner.findSnapshot tolerance readings target with
  | some r =>
      r ∈ readings ∧ absDiff r.timestamp target ≤ tolerance ∧
        ∀ x ∈ readings,
          absDiff r.timestamp target ≤ absDiff x.timestamp target ∧
            (absDiff r.timestamp target = absDiff x.timestamp target →
              r.timestamp ≤ x.timestamp)
  | none => ∀ x ∈ readings, tolerance < absDiff x.timestamp target

theorem findSnapshot_sorted_spec (tolerance : Nat) (readings : List Reading)
    (target : Nat)
    (hs : readings.Pairwise fun a b => a.timestamp ≤ b.timestamp)
    (hne : readings ≠ []) : AlignerSpec tolerance readings target := by
  have hnpos : 0 < readings.length := List.length_pos.mpr hne
  have hE : readings.isEmpty = false := by
    cases readings with
    | nil => exact absurd rfl hne
    | cons a l => rfl
  obtain ⟨k, hkdef⟩ :
      ∃ k, readings.findIdx (fun r => decide (target ≤ r.timestamp)) = k :=
    ⟨_, rfl⟩
  have hkle : k ≤ readings.length := by
    rw [← hkdef]; exact List.findIdx_le_length _
  have hsn : TimeAligner.findSnapshot tolerance readings target =
      (TimeAligner.consider tolerance readings target
        (TimeAligner.consider tolerance readings target (none, tolerance + 1)
          ((k : ℤ) - 1)) (k : ℤ)).1 := by
    rw [TimeAligner.findSnapshot, if_neg (by simp [hE]), hkdef]
  have hmono : ∀ (i j : ℕ) (hij : i ≤ j) (hj : j < readings.length),
      (readings.get ⟨i, by omega⟩).timestamp ≤
        (readings.get ⟨j, hj⟩).timestamp := by
    intro i j hij hj
    rcases Nat.lt_or_ge i j with h | h
    · exact List.pairwise_iff_get.mp hs ⟨i, by omega⟩ ⟨j, hj⟩ h
    · have : i = j := by omega
      subst this
      exact le_refl _
  have hbefore : ∀ (j : ℕ) (hjk : j < k) (hj : j < readings.length),
      (readings.get ⟨j, hj⟩).timestamp < target := by
    intro j hjk hj
    have h1 := @List.not_of_lt_findIdx _
      (fun r => decide (target ≤ r.timestamp)) readings j
      (by rw [hkdef]; exact hjk)
    simp only [decide_eq_false_iff_not, not_le] at h1
    simpa [List.get_eq_getElem] using h1
  have hafter : ∀ (hkn : k < readings.length),
      target ≤ (readings.get ⟨k, hkn⟩).timestamp := by
    intro hkn
    have h1 := @List.findIdx_getElem _
      (fun r => decide (target ≤ r.timestamp)) readings
      (by rw [hkdef]; exact hkn)
    simp only [decide_eq_true_eq] at h1
    have h2 : readings.get ⟨k, hkn⟩ =
        readings.get ⟨readings.findIdx fun r => decide (target ≤ r.timestamp),
          by rw [hkdef]; exact hkn⟩ := by
      congr 1
      simp [hkdef]
    rw [h2]
    simpa [List.get_eq_getElem] using h1
  have hmem_idx : ∀ x ∈ readings,
      ∃ (j : ℕ) (hj : j < readings.length), readings.get ⟨j, hj⟩ = x := by
    intro x hx
    rcases List.mem_iff_getElem.mp hx with ⟨j, hj, hxj⟩
    exact ⟨j, hj, by simpa [List.get_eq_getElem] using hxj⟩
  by_cases hk0 : k = 0
  · -- idx = 0: the only candidate is readings[0], and target ≤ its timestamp
    subst hk0
    have hstep1 : TimeAligner.consider tolerance readings target
        (none, tolerance + 1) (((0 : ℕ) : ℤ) - 1) = (none, tolerance + 1) :=
      consider_neg (by omega)
    have h2 : (0 : ℤ) ≤ ((0 : ℕ) : ℤ) ∧
        ((0 : ℕ) : ℤ) < (readings.length : ℤ) := by omega
    have hnat2 : (((0 : ℕ) : ℤ)).toNat < readings.length := by omega
    have hval : TimeAligner.findSnapshot tolerance readings target =
        (if absDiff (readings.get ⟨0, hnat2⟩).timestamp target ≤ tolerance ∧
            absDiff (readings.get ⟨0, hnat2⟩).timestamp target < tolerance + 1
          then (some (readings.get ⟨0, hnat2⟩),
            absDiff (readings.get ⟨0, hnat2⟩).timestamp target)
          else (none, tolerance + 1)).1 := by
      rw [hsn, hstep1, consider_pos h2 hnat2]
      rfl
    have ht0 : target ≤ (readings.get ⟨0, hnat2⟩).timestamp := hafter hnat2
    by_cases hd0 : absDiff (readings.get ⟨0, hnat2⟩).timestamp target ≤
        tolerance
    · have hval' : TimeAligner.findSnapshot tolerance readings target =
          some (readings.get ⟨0, hnat2⟩) := by
        rw [hval, if_pos ⟨hd0, by omega⟩]
      unfold AlignerSpec
      rw [hval']
      refine ⟨readings.get_mem _ _, hd0, ?_⟩
      intro x hx
      obtain ⟨j, hj, rfl⟩ := hmem_idx x hx
      have h0j : (readings.get ⟨0, hnat2⟩).timestamp ≤
          (readings.get ⟨j, hj⟩).timestamp := hmono 0 j (Nat.zero_le j) hj
      constructor
      · simp only [absDiff]; omega
      · intro _; exact h0j
    · have hval' : TimeAligner.findSnapshot tolerance readings target =
          none := by
        rw [hval, if_neg (by omega)]
      unfold AlignerSpec
      rw [hval']
      intro x hx
      obtain ⟨j, hj, rfl⟩ := hmem_idx x hx
      have h0j : (readings.get ⟨0, hnat2⟩).timestamp ≤
          (readings.get ⟨j, hj⟩).timestamp := hmono 0 j (Nat.zero_le j) hj
      simp only [absDiff] at hd0 ⊢
      omega
  · have hkpos : 0 < k := Nat.pos_of_ne_zero hk0
    have hklt : k - 1 < readings.length := by omega
    have hA : (readings.get ⟨k - 1, hklt⟩).timestamp < target :=
      hbefore (k - 1) (by omega) hklt
    have hnat1 : ((k : ℤ) - 1).toNat < readings.length := by omega
    have hidx1 : (((k : ℤ) - 1)).toNat = k - 1 := by omega
    have hget1 : readings.get ⟨((k : ℤ) - 1).toNat, hnat1⟩ =
        readings.get ⟨k - 1, hklt⟩ := by
      congr 1
      exact Fin.ext hidx1
    have hstep1 : TimeAligner.consider tolerance readings target
        (none, tolerance + 1) ((k : ℤ) - 1) =
        (if absDiff (readings.get ⟨k - 1, hklt⟩).timestamp target ≤
              tolerance ∧
            absDiff (readings.get ⟨k - 1, hklt⟩).timestamp target <
              tolerance + 1
          then (some (readings.get ⟨k - 1, hklt⟩),
            absDiff (readings.get ⟨k - 1, hklt⟩).timestamp target)
          else (none, tolerance + 1)) := by
      rw [consider_pos (by omega) hnat1, hget1]
    by_cases hkn : k < readings.length
    · -- 0 < idx < n: candidates idx−1 and idx
      have hB : target ≤ (readings.get ⟨k, hkn⟩).timestamp := hafter hkn
      have hnat2 : ((k : ℤ)).toNat < readings.length := by omega
      have hget2 : readings.get ⟨((k : ℤ)).toNat, hnat2⟩ =
          readings.get ⟨k, hkn⟩ := by
        congr 1
      have hstep2 : ∀ st : Option Reading × Nat,
          TimeAligner.consider tolerance readings target st (k : ℤ) =
          (if absDiff (readings.get ⟨k, hkn⟩).timestamp target ≤ tolerance ∧
              absDiff (readings.get ⟨k, hkn⟩).timestamp target < st.2
            then (some (readings.get ⟨k, hkn⟩),
              absDiff (readings.get ⟨k, hkn⟩).timestamp target)
            else st) := by
        intro st
        rw [consider_pos (by omega) hnat2, hget2]
      -- shorthand facts for the minimality arguments
      have hminArg : ∀ (j : ℕ) (hj : j < readings.length),
          ((readings.get ⟨j, hj⟩).timestamp ≤
              (readings.get ⟨k - 1, hklt⟩).timestamp ∧
            (readings.get ⟨j, hj⟩).timestamp < target) ∨
          ((readings.get ⟨k, hkn⟩).timestamp ≤
              (readings.get ⟨j, hj⟩).timestamp ∧
            target ≤ (readings.get ⟨j, hj⟩).timestamp) := by
        intro j hj
        rcases Nat.lt_or_ge j k with hjk | hjk
        · exact Or.inl ⟨hmono j (k - 1) (by omega) hklt, hbefore j hjk hj⟩
        · have hkj := hmono k j hjk hj
          exact Or.inr ⟨hkj, le_trans hB hkj⟩
      by_cases hda : absDiff (readings.get ⟨k - 1, hklt⟩).timestamp target ≤
          tolerance
      · have hst1 : TimeAligner.consider tolerance readings target
            (none, tolerance + 1) ((k : ℤ) - 1) =
            (some (readings.get ⟨k - 1, hklt⟩),
              absDiff (readings.get ⟨k - 1, hklt⟩).timestamp target) := by
          rw [hstep1, if_pos ⟨hda, by omega⟩]
        by_cases hdb : absDiff (readings.get ⟨k, hkn⟩).timestamp target ≤
              tolerance ∧
            absDiff (readings.get ⟨k, hkn⟩).timestamp target <
              absDiff (readings.get ⟨k - 1, hklt⟩).timestamp target
        · -- the right candidate is strictly closer: it wins
          have hval' : TimeAligner.findSnapshot tolerance readings target =
              some (readings.get ⟨k, hkn⟩) := by
            rw [hsn, hst1, hstep2, if_pos hdb]
          unfold AlignerSpec
          rw [hval']
          refine ⟨readings.get_mem _ _, hdb.1, ?_⟩
          intro x hx
          obtain ⟨j, hj, rfl⟩ := hmem_idx x hx
          rcases hminArg j hj with ⟨hja, hjt⟩ | ⟨hjb, hjt⟩
          · obtain ⟨hdb1, hdb2⟩ := hdb
            constructor
            · simp only [absDiff] at hdb2 ⊢; omega
            · intro heq
              simp only [absDiff] at hdb2 heq
              omega
          · constructor
            · simp only [absDiff]; omega
            · intro heq
              simp only [absDiff] at heq
              omega
        · -- distances tie or the left is closer (or right out of tolerance):
          -- the earlier (left) candidate is kept
          have hval' : TimeAligner.findSnapshot tolerance readings target =
              some (readings.get ⟨k - 1, hklt⟩) := by
            rw [hsn, hst1, hstep2, if_neg hdb]
          have hdadb : absDiff (readings.get ⟨k - 1, hklt⟩).timestamp target ≤
              absDiff (readings.get ⟨k, hkn⟩).timestamp target := by
            rcases not_and_or.mp hdb with h | h
            · simp only [absDiff] at *; omega
            · simp only [absDiff] at *; omega
          unfold AlignerSpec
          rw [hval']
          refine ⟨readings.get_mem _ _, hda, ?_⟩
          intro x hx
          obtain ⟨j, hj, rfl⟩ := hmem_idx x hx
          rcases hminArg j hj with ⟨hja, hjt⟩ | ⟨hjb, hjt⟩
          · constructor
            · simp only [absDiff]; omega
            · intro heq
              simp only [absDiff] at heq
              omega
          · constructor
            · simp only [absDiff] at hdadb ⊢; omega
            · intro _
              omega
      · -- left candidate out of tolerance
        have hst1 : TimeAligner.consider tolerance readings target
            (none, tolerance + 1) ((k : ℤ) - 1) = (none, tolerance + 1) := by
          rw [hstep1, if_neg (by omega)]
        by_cases hdb : absDiff (readings.get ⟨k, hkn⟩).timestamp target ≤
            tolerance
        · have hval' : TimeAligner.findSnapshot tolerance readings target =
              some (readings.get ⟨k, hkn⟩) := by
            rw [hsn, hst1, hstep2, if_pos ⟨hdb, by omega⟩]
          unfold AlignerSpec
          rw [hval']
          refine ⟨readings.get_mem _ _, hdb, ?_⟩
          intro x hx
          obtain ⟨j, hj, rfl⟩ := hmem_idx x hx
          rcases hminArg j hj with ⟨hja, hjt⟩ | ⟨hjb, hjt⟩
          · constructor
            · simp only [absDiff] at hda hdb ⊢; omega
            · intro heq
              simp only [absDiff] at hda hdb heq
              omega
          · constructor
            · simp only [absDiff]; omega
            · intro heq
              simp only [absDiff] at heq
              omega
        · have hval' : TimeAligner.findSnapshot tolerance readings target =
              none := by
            rw [hsn, hst1, hstep2, if_neg (by omega)]
          unfold AlignerSpec
          rw [hval']
          intro x hx
          obtain ⟨j, hj, rfl⟩ := hmem_idx x hx
          rcases hminArg j hj with ⟨hja, hjt⟩ | ⟨hjb, hjt⟩
          · simp only [absDiff] at hda ⊢; omega
          · simp only [absDiff] at hdb ⊢; omega
    · -- idx = n: the only candidate is the last reading, strictly before target
      have hkn' : k = readings.length := by omega
      have hstep2 : ∀ st : Option Reading × Nat,
          TimeAligner.consider tolerance readings target st (k : ℤ) = st := by
        intro st
        exact consider_neg (by omega)
      have hlastlt : ∀ (j : ℕ) (hj : j < readings.length),
          (readings.get ⟨j, hj⟩).timestamp ≤
            (readings.get ⟨k - 1, hklt⟩).timestamp ∧
          (readings.get ⟨j, hj⟩).timestamp < target := by
        intro j hj
        exact ⟨hmono j (k - 1) (by omega) hklt, hbefore j (by omega) hj⟩
      by_cases hda : absDiff (readings.get ⟨k - 1, hklt⟩).timestamp target ≤
          tolerance
      · have hval' : TimeAligner.findSnapshot tolerance readings target =
            some (readings.get ⟨k - 1, hklt⟩) := by
          rw [hsn, hstep2, hstep1, if_pos ⟨hda, by omega⟩]
        unfold AlignerSpec
        rw [hval']
        refine ⟨readings.get_mem _ _, hda, ?_⟩
        intro x hx
        obtain ⟨j, hj, rfl⟩ := hmem_idx x hx
        obtain ⟨hja, hjt⟩ := hlastlt j hj
        constructor
        · simp only [absDiff]; omega
        · intro heq
          simp only [absDiff] at heq
          omega
      · have hval' : TimeAligner.findSnapshot tolerance readings target =
            none := by
          rw [hsn, hstep2, hstep1, if_neg (by omega)]
        unfold AlignerSpec
        rw [hval']
        intro x hx
        obtain ⟨j, hj, rfl⟩ := hmem_idx x hx
        obtain ⟨hja, hjt⟩ := hlastlt j hj
        simp only [absDiff] at hda ⊢
        omega

/-! ## Helper lemmas: grid and standardizer -/

theorem timeTruncate_le (t d : Nat) : timeTruncate t d ≤ t := by
  unfold timeTruncate
  split_ifs <;> omega

theorem le_gridCeil {d : Nat} (hd : 0 < d) (e : Nat) : e ≤ gridCeil e d := by
  have h0 : ¬d = 0 := by omega
  have h1 : e % d < d := Nat.mod_lt _ hd
  have h2 : e % d ≤ e := Nat.mod_le _ _
  simp only [gridCeil, timeTruncate, h0, if_false]
  split_ifs <;> omega

theorem head_le_getLast {h : Reading} {t : List Reading}
    (hp : (h :: t).Pairwise fun a b => a.timestamp ≤ b.timestamp) :
    h.timestamp ≤ (((h :: t).getLast (List.cons_ne_nil h t))).timestamp := by
  rcases List.mem_cons.mp (List.getLast_mem (List.cons_ne_nil h t)) with
    hl | hl
  · rw [hl]
  · exact (List.pairwise_cons.mp hp).1 _ hl

theorem gridPoints_elim {start stop step t : Nat}
    (ht : t ∈ gridPoints start stop step) :
    ∃ j, j ≤ (stop - start) / step ∧ t = start + j * step := by
  simp only [gridPoints, List.mem_map, List.mem_range] at ht
  obtain ⟨j, hj, rfl⟩ := ht
  exact ⟨j, by omega, rfl⟩

theorem gridPoints_pairwise {start stop step : Nat} (hstep : 0 < step) :
    (gridPoints start stop step).Pairwise (· < ·) := by
  refine List.pairwise_map.mpr ?_
  exact (List.pairwise_lt_range _).imp fun hab => by
    have := (Nat.mul_lt_mul_right hstep).mpr hab
    omega

/-- Every grid point is a whole multiple of the interval and lies between
gridStart and gridEnd of the shard. -/
theorem gridPoint_bounds {interval : Nat} (hint : 0 < interval)
    {devReadings : List Reading} {h : Reading} {t : List Reading}
    (hms : sortedShard devReadings = h :: t) {g : Nat}
    (hg : g ∈ gridPoints (gridStartD interval devReadings)
      (gridEndD interval devReadings) interval) :
    g % interval = 0 ∧ gridStartD interval devReadings ≤ g ∧
      g ≤ gridEndD interval devReadings := by
  have hsorted : (h :: t).Pairwise fun a b => a.timestamp ≤ b.timestamp := by
    rw [← hms]
    exact sortByTime_pairwise devReadings
  have hstart : gridStartD interval devReadings =
      timeTruncate h.timestamp interval := by
    rw [gridStartD, hms]
  have hend : gridEndD interval devReadings =
      gridCeil (((h :: t).getLast (List.cons_ne_nil h t))).timestamp
        interval := by
    rw [gridEndD, hms]
  have hse : gridStartD interval devReadings ≤
      gridEndD interval devReadings := by
    rw [hstart, hend]
    exact le_trans (timeTruncate_le _ _)
      (le_trans (head_le_getLast hsorted) (le_gridCeil hint _))
  obtain ⟨j, hj, rfl⟩ := gridPoints_elim hg
  refine ⟨?_, by omega, ?_⟩
  · have hdm := Nat.div_add_mod h.timestamp interval
    have hq : gridStartD interval devReadings =
        interval * (h.timestamp / interval) := by
      rw [hstart]
      unfold timeTruncate
      rw [if_neg (by omega)]
      omega
    rw [hq]
    have : interval * (h.timestamp / interval) + j * interval =
        interval * (h.timestamp / interval + j) := by ring
    rw [this]
    exact Nat.mul_mod_right _ _
  · have hmul : j * interval ≤
        ((gridEndD interval devReadings - gridStartD interval devReadings) /
          interval) * interval :=
      Nat.mul_le_mul_right _ hj
    have hfloor := Nat.div_mul_le_self
      (gridEndD interval devReadings - gridStartD interval devReadings)
      interval
    omega

/-- Every output of a shard worker carries a timestamp on the epoch-anchored
grid, between the shard's gridStart and gridEnd. -/
theorem processShard_timestamp_grid {interval tolerance : Nat}
    (hint : 0 < interval) (octx : Option IngestContext) (now : Nat)
    (devReadings : List Reading) :
    ∀ sr ∈ processShard interval tolerance octx now devReadings,
      sr.timestamp % interval = 0 ∧
        gridStartD interval devReadings ≤ sr.timestamp ∧
        sr.timestamp ≤ gridEndD interval devReadings := by
  intro sr hsr
  rcases hms : sortedShard devReadings with _ | ⟨h, t⟩
  · rw [processShard, hms] at hsr
    exact absurd hsr (by simp)
  · rw [processShard, hms] at hsr
    obtain ⟨g, hg, hmap⟩ := List.mem_filterMap.mp hsr
    obtain ⟨snap, hsnap, hsr'⟩ := Option.map_eq_some'.mp hmap
    have hts : sr.timestamp = g := by rw [← hsr']
    rw [hts]
    exact gridPoint_bounds hint hms hg

/-- Within one shard, outputs are emitted in strictly ascending timestamp
order. -/
theorem processShard_ascending {interval tolerance : Nat}
    (hint : 0 < interval) (octx : Option IngestContext) (now : Nat)
    (devReadings : List Reading) :
    (processShard interval tolerance octx now devReadings).Pairwise
      fun a b => a.timestamp < b.timestamp := by
  rcases hms : sortedShard devReadings with _ | ⟨h, t⟩
  · rw [processShard, hms]
    simp
  · rw [processShard, hms]
    refine List.pairwise_filterMap.mpr ?_
    refine (gridPoints_pairwise hint).imp ?_
    intro g g' hgg' b hb b' hb'
    have hbts : b.timestamp = g := by
      rcases Option.map_eq_some'.mp hb with ⟨snap, _, hsr'⟩
      rw [← hsr']
    have hbts' : b'.timestamp = g' := by
      rcases Option.map_eq_some'.mp hb' with ⟨snap, _, hsr'⟩
      rw [← hsr']
    omega

/-- Every output of a shard worker is derived from a reading of the shard
and carries that reading's DeviceID. -/
theorem processShard_deviceID {interval tolerance : Nat}
    (octx : Option IngestContext) (now : Nat) (devReadings : List Reading) :
    ∀ sr ∈ processShard interval tolerance octx now devReadings,
      ∃ snap ∈ devReadings, sr.deviceID = snap.deviceInfo.id := by
  intro sr hsr
  rcases hms : sortedShard devReadings with _ | ⟨h, t⟩
  · rw [processShard, hms] at hsr
    exact absurd hsr (by simp)
  · rw [processShard, hms] at hsr
    obtain ⟨g, hg, hmap⟩ := List.mem_filterMap.mp hsr
    obtain ⟨snap, hsnap, hsr'⟩ := Option.map_eq_some'.mp hmap
    refine ⟨snap, ?_, ?_⟩
    · have : snap ∈ sortedShard devReadings := by
        rw [hms]
        exact findSnapshot_mem hsnap
      exact mem_sortByTime.mp this
    · rw [← hsr']
      rfl

/-- Membership in the gathered ProcessAndStandardize output comes from one
device shard. -/
theorem processAndStandardize_mem {rules : List CleaningRule}
    {octx : Option IngestContext} {interval tolerance now : Nat}
    {raw : List Reading} {sr : StandardReading}
    (hsr : sr ∈ processAndStandardize rules octx interval tolerance now raw) :
    ∃ d, sr ∈ processShard interval tolerance octx now
      ((ChainSanitizer.clean rules now raw).1.filter
        fun r => r.deviceInfo.id = d) := by
  simp only [processAndStandardize, List.mem_flatMap] at hsr
  obtain ⟨d, _, h⟩ := hsr
  exact ⟨d, h⟩

/-- The constant fields standardizeOne stamps on every shard output. -/
theorem processShard_fields (interval tolerance : Nat)
    (octx : Option IngestContext) (now : Nat) (devReadings : List Reading) :
    ∀ sr ∈ processShard interval tolerance octx now devReadings,
      sr.priority = contextPriority octx ∧ sr.quality = "VALID" ∧
        sr.sourceType = "STANDARD" := by
  intro sr hsr
  rcases hms : sortedShard devReadings with _ | ⟨h, t⟩
  · rw [processShard, hms] at hsr
    exact absurd hsr (by simp)
  · rw [processShard, hms] at hsr
    obtain ⟨g, hg, hmap⟩ := List.mem_filterMap.mp hsr
    obtain ⟨snap, hsnap, hsr'⟩ := Option.map_eq_some'.mp hmap
    rw [← hsr']
    exact ⟨rfl, rfl, rfl⟩

/-- RangeRule never changes the (DeviceID, Timestamp) of a reading. -/
theorem RangeRule_preserves_key (rmin rmax : ℚ) (action : String) :
    ∀ ctx r, readingKey ((RangeRule.check rmin rmax action ctx r).reading) =
      readingKey r := by
  intro ctx r
  unfold RangeRule.check
  split_ifs <;> rfl

/-- On a list of readings of a single device, non-decreasing timestamps
together with pairwise-distinct consecutive keys give strictly increasing
consecutive timestamps. -/
theorem chain_lt_of_same_device {d : String} :
    ∀ {l : List Reading}, (∀ x ∈ l, x.deviceInfo.id = d) →
      List.Chain' (fun a b => a.timestamp ≤ b.timestamp) l →
      List.Chain' (fun a b => readingKey a ≠ readingKey b) l →
      List.Chain' (fun a b => a.timestamp < b.timestamp) l := by
  intro l
  induction l with
  | nil => intro _ _ _; simp
  | cons x xs ih =>
      cases xs with
      | nil => intro _ _ _; simp
      | cons y ys =>
          intro hmem hR hS
          rcases List.chain'_cons.mp hR with ⟨hR1, hR2⟩
          rcases List.chain'_cons.mp hS with ⟨hS1, hS2⟩
          refine List.chain'_cons.mpr ⟨?_, ih
            (fun z hz => hmem z (List.mem_cons_of_mem x hz)) hR2 hS2⟩
          have hx := hmem x (by simp)
          have hy := hmem y (by simp)
          rcases Nat.lt_or_ge x.timestamp y.timestamp with h | h
          · exact h
          · exfalso
            have hts : x.timestamp = y.timestamp := by omega
            exact hS1 (by simp [readingKey, hx, hy, hts])

/-! ## Concrete fixtures for witnesses and counterexamples -/

def devD1 : DeviceInfo := ⟨"D1", "", "WATER"⟩

def devD2 : DeviceInfo := ⟨"D2", "", "WATER"⟩

/-- A wide pass-through REJECT range rule (values 0..1000 pass). -/
def wideRangeRule : CleaningRule := RangeRule.check 0 1000 "REJECT"

def c2r1 : Reading := ⟨devD1, 100, 5⟩

def c2r2 : Reading := ⟨devD2, 200, 7⟩

def c3r1 : Reading := ⟨devD1, 100, 1⟩

def c3r2 : Reading := ⟨devD2, 100, 2⟩

def c3r3 : Reading := ⟨devD1, 100, 3⟩

def c6a : Reading := ⟨devD1, 50, 1⟩

def c6b : Reading := ⟨devD1, 50, 2⟩

def w5r : Reading := ⟨devD1, 1000, 5⟩

/-! ## Claim theorems -/

/-- Claim C1 (code bug): the claim — and the repository's own README and
test suite — demand ValueScaled = round_half_away(ValueDisplay × ScaleFactor),
with 100.00019 × 10000 ↦ 1000002; the current standardizeOne in
pkg/core/services/standardizer.go instead truncates
(`int64(r.Value * float64(10000))`) and produces 1000001 on that input.
This theorem certifies the float64 constants (the nearest double to
100.00019 and the correctly rounded float64 product, with their binade
checks), evaluates the truncating code path to 1000001 (both on the exact
and on the rounded product), evaluates the math.Round-based
MetricUnifier.ToScaled path to the claimed 1000002, and confirms that
ValueDisplay and the default ScaleFactor 10000 are preserved as claimed. -/
theorem C1_truncation_bug :
    float100_00019 = froundGrid (1 / 2 ^ 46) (10000019 / 100000) ∧
    ((2 : ℚ) ^ 6 ≤ float100_00019 ∧ float100_00019 < 2 ^ 7) ∧
    floatProd100_00019 = froundGrid (1 / 2 ^ 33) (float100_00019 * 10000) ∧
    ((2 : ℚ) ^ 19 ≤ floatProd100_00019 ∧ floatProd100_00019 < 2 ^ 20) ∧
    (standardizeOne none 0 ⟨devD1, 0, float100_00019⟩).valueScaled =
      1000001 ∧
    int64Trunc floatProd100_00019 = 1000001 ∧
    roundHalfAway floatProd100_00019 = 1000002 ∧
    MetricUnifier.toScaled 10000 float100_00019 = 1000002 ∧
    (standardizeOne none 0 ⟨devD1, 0, float100_00019⟩).valueDisplay =
      float100_00019 ∧
    (standardizeOne none 0 ⟨devD1, 0, float100_00019⟩).scaleFactor = 10000 := by
  refine ⟨?_, ⟨?_, ?_⟩, ?_, ⟨?_, ?_⟩, ?_, ?_, ?_, ?_, rfl, rfl⟩
  · norm_num [float100_00019, froundGrid, roundTiesToEven]
  · norm_num [float100_00019]
  · norm_num [float100_00019]
  · norm_num [floatProd100_00019, float100_00019, froundGrid,
      roundTiesToEven]
  · norm_num [floatProd100_00019]
  · norm_num [floatProd100_00019]
  · show int64Scale float100_00019 = 1000001
    norm_num [int64Scale, float100_00019, DefaultScaleFactor]
    decide
  · norm_num [int64Trunc, floatProd100_00019]
    decide
  · norm_num [roundHalfAway, floatProd100_00019]
  · norm_num [MetricUnifier.toScaled, roundHalfAway, float100_00019]

/-- Claim C9 (counterexample): the Monotonic rule REJECTS a negative first
reading even though Previous is nil — the claim says it would pass. -/
theorem C9_counterexample :
    (MonotonicRule.check none ⟨devD1, 10, -1⟩).1 = false ∧
    (MonotonicRule.check none ⟨devD1, 10, -1⟩).2 = some "negative value" := by
  constructor <;> decide

/-- Claim C9 (amended): the Monotonic rule fails exactly when the value is
negative, or Previous ≠ nil and the value regressed below Previous.Value;
with Previous nil it passes iff the value is non-negative. -/
theorem C9_monotonic (prev : Option Reading) (curr : Reading) :
    (MonotonicRule.check prev curr).1 = false ↔
      (curr.value < 0 ∨ ∃ p, prev = some p ∧ curr.value < p.value) := by
  rcases prev with _ | p
  · by_cases h : curr.value < 0 <;> simp [MonotonicRule.check, h]
  · by_cases h : curr.value < 0
    · simp [MonotonicRule.check, h]
    · by_cases h2 : curr.value < p.value <;>
        simp [MonotonicRule.check, h, h2]

/-- Claim C4: on a sorted non-empty batch, FindSnapshot returns a reading of
the batch with minimal absolute difference to the target, provided that
difference is within Tolerance (nil when no reading is within Tolerance),
and on an exact equidistant tie it returns the earlier reading. -/
theorem C4_aligner_nearest (tolerance : Nat) (readings : List Reading)
    (target : Nat)
    (hs : readings.Pairwise fun a b => a.timestamp ≤ b.timestamp)
    (hne : readings ≠ []) : AlignerSpec tolerance readings target :=
  findSnapshot_sorted_spec tolerance readings target hs hne

/-- Claim C4 witness (scenario S5): readings at offsets 605 and 615, target
610, tolerance 5 — both candidates tie at distance 5 and the earlier one is
returned. -/
theorem C4_witness :
    AlignerSpec 5 [⟨devD1, 605, 1⟩, ⟨devD1, 615, 2⟩] 610 ∧
      TimeAligner.findSnapshot 5 [⟨devD1, 605, 1⟩, ⟨devD1, 615, 2⟩] 610 =
        some ⟨devD1, 605, 1⟩ :=
  ⟨C4_aligner_nearest 5 [⟨devD1, 605, 1⟩, ⟨devD1, 615, 2⟩] 610 (by decide)
    (by decide), by decide⟩

/-- Claim C2 (counterexample): with two devices in one batch, the
CleaningContext.Previous handed to the rule chain for device D2's first
reading is device D1's accepted reading — not nil, and not a reading of
D2's stream.  The trace records (accepted so far, Previous handed, current)
for each reading reaching the rule chain. -/
theorem C2_counterexample :
    ChainSanitizer.cleanTrace [wideRangeRule] 0 [c2r1, c2r2] =
      [([], none, c2r1), ([c2r1], some c2r1, c2r2)] ∧
    c2r1.deviceInfo.id = "D1" ∧ c2r2.deviceInfo.id = "D2" := by
  refine ⟨?_, rfl, rfl⟩
  decide

/-- Claim C2 (amended): the Previous handed to the rule chain is the most
recent accepted reading overall — the last element of the clean output
accepted so far, regardless of device — or nil when nothing has been
accepted yet; the accepted-so-far list is a prefix of the final clean
output. -/
theorem C2_previous_global (rules : List CleaningRule) (now : Nat)
    (readings : List Reading) :
    ∀ e ∈ ChainSanitizer.cleanTrace rules now readings,
      e.2.1 = e.1.getLast? ∧
        ∃ t2, (ChainSanitizer.clean rules now readings).1 = e.1 ++ t2 := by
  intro e he
  by_cases hE : readings.isEmpty
  · rw [ChainSanitizer.cleanTrace, if_pos hE] at he
    exact absurd he (by simp)
  · rw [ChainSanitizer.cleanTrace, if_neg hE] at he
    have h := cleanWalk_trace now (sortByTime readings) [] none rfl e he
    refine ⟨h.1, ?_⟩
    rcases h.2 with ⟨s, t2, hs, ht⟩
    simp only [List.nil_append] at hs
    refine ⟨t2, ?_⟩
    rw [ChainSanitizer.clean, if_neg hE]
    rw [ht, hs]

/-- Claim C2 witness: the amended statement applied at the concrete
counterexample trace entry. -/
theorem C2_witness :
    (([c2r1], some c2r1, c2r2) :
        List Reading × Option Reading × Reading).2.1 =
      ([c2r1], some c2r1, c2r2).1.getLast? ∧
      ∃ t2, (ChainSanitizer.clean [wideRangeRule] 0 [c2r1, c2r2]).1 =
        ([c2r1], some c2r1, c2r2).1 ++ t2 :=
  C2_previous_global [wideRangeRule] 0 [c2r1, c2r2]
    ([c2r1], some c2r1, c2r2) (by decide)

/-- Claim C3 (counterexample): with readings of two devices interleaved at
equal timestamps, the clean output accepts two readings of device D1 with
the same (DeviceID, Timestamp) — the per-device strictness invariant fails,
because the deduplication guard only compares against the single most recent
accepted reading of any device. -/
theorem C3_counterexample :
    (ChainSanitizer.clean [] 0 [c3r1, c3r2, c3r3]).1 = [c3r1, c3r2, c3r3] ∧
    readingKey c3r1 = readingKey c3r3 ∧
    ¬ ((ChainSanitizer.clean [] 0 [c3r1, c3r2, c3r3]).1.Pairwise
        fun a b => readingKey a ≠ readingKey b) := by
  refine ⟨by decide, by decide, by decide⟩

/-- Claim C3 (amended): provided the configured rules preserve DeviceID and
Timestamp, the clean output is non-decreasing by Timestamp, consecutive
accepted readings never share a (DeviceID, Timestamp), and when the whole
batch belongs to a single device the output is strictly ascending by
Timestamp (so no two accepted readings of a single-device batch share a
timestamp).  With several devices interleaved at equal timestamps,
duplicates within one device can both be accepted (see the
counterexample). -/
theorem C3_per_device_order (rules : List CleaningRule) (now : Nat)
    (readings : List Reading)
    (hkeys : ∀ rule ∈ rules, ∀ ctx r,
      readingKey ((rule ctx r).reading) = readingKey r) :
    ((ChainSanitizer.clean rules now readings).1.Pairwise
        fun a b => a.timestamp ≤ b.timestamp) ∧
    List.Chain' (fun a b => readingKey a ≠ readingKey b)
      ((ChainSanitizer.clean rules now readings).1) ∧
    (∀ d : String, (∀ r ∈ readings, r.deviceInfo.id = d) →
      (ChainSanitizer.clean rules now readings).1.Pairwise
        fun a b => a.timestamp < b.timestamp) := by
  by_cases hE : readings.isEmpty
  · rw [ChainSanitizer.clean, if_pos hE]
    exact ⟨by simp, by simp, fun d _ => by simp⟩
  · rw [ChainSanitizer.clean, if_neg hE]
    have ksub := cleanWalk_keys_sublist hkeys now (sortByTime readings) []
      none
    have hsortedkeys : ((sortByTime readings).map readingKey).Pairwise
        fun k1 k2 => k1.2 ≤ k2.2 := by
      refine List.pairwise_map.mpr ?_
      exact (sortByTime_pairwise readings).imp fun hab => hab
    have hcleansorted :
        ((ChainSanitizer.cleanWalk rules now [] none
          (sortByTime readings)).1.Pairwise
            fun a b => a.timestamp ≤ b.timestamp) := by
      have := List.pairwise_map.mp (hsortedkeys.sublist ksub)
      exact this.imp fun hab => hab
    have hchain : List.Chain' (fun a b => readingKey a ≠ readingKey b)
        ((ChainSanitizer.cleanWalk rules now [] none
          (sortByTime readings)).1) := by
      have := cleanWalk_chain hkeys now (sortByTime readings) [] none
      simpa using this
    refine ⟨hcleansorted, hchain, ?_⟩
    intro d hd
    have hmemid : ∀ x ∈ (ChainSanitizer.cleanWalk rules now [] none
        (sortByTime readings)).1, x.deviceInfo.id = d := by
      intro x hx
      have h1 : readingKey x ∈
          ((ChainSanitizer.cleanWalk rules now [] none
            (sortByTime readings)).1).map readingKey :=
        List.mem_map_of_mem _ hx
      have h2 : readingKey x ∈ (sortByTime readings).map readingKey :=
        ksub.subset h1
      obtain ⟨y, hy, hyx⟩ := List.mem_map.mp h2
      have hyd : y.deviceInfo.id = d := hd y (mem_sortByTime.mp hy)
      have : (readingKey y).1 = (readingKey x).1 := by rw [hyx]
      simpa [readingKey, hyd] using this.symm
    have hlt := chain_lt_of_same_device hmemid
      (hcleansorted.chain') hchain
    haveI : IsTrans Reading (fun a b => a.timestamp < b.timestamp) :=
      ⟨fun a b c h1 h2 => by omega⟩
    exact List.chain'_iff_pairwise.mp hlt

/-- Claim C3 witness: the amended statement at a single-device batch with a
duplicate timestamp — the duplicate is quarantined and the clean output is
strictly ascending. -/
theorem C3_witness :
    ((ChainSanitizer.clean [] 0 [c6a, c6b, w5r]).1.Pairwise
        fun a b => a.timestamp ≤ b.timestamp) ∧
    List.Chain' (fun a b => readingKey a ≠ readingKey b)
      ((ChainSanitizer.clean [] 0 [c6a, c6b, w5r]).1) ∧
    (∀ d : String, (∀ r ∈ [c6a, c6b, w5r], r.deviceInfo.id = d) →
      (ChainSanitizer.clean [] 0 [c6a, c6b, w5r]).1.Pairwise
        fun a b => a.timestamp < b.timestamp) :=
  C3_per_device_order [] 0 [c6a, c6b, w5r] (by simp)

/-- Claim C6: every reading of a batch lands either in clean (with its
(DeviceID, Timestamp) identity intact, the value possibly corrected) or in
quarantined with a non-empty Reason — never both, never neither: the keys of
clean and of the quarantined snapshots together are a permutation of the
keys of the input batch.  Hypotheses: every configured rule reports a
non-empty reason when it fails (as the claim assumes), and rules only ever
adjust the value, never DeviceID or Timestamp. -/
theorem C6_partition (rules : List CleaningRule) (now : Nat)
    (readings : List Reading)
    (hreason : ∀ rule ∈ rules, ∀ ctx r,
      (rule ctx r).passed = false → (rule ctx r).reason ≠ "")
    (hkeys : ∀ rule ∈ rules, ∀ ctx r,
      readingKey ((rule ctx r).reading) = readingKey r) :
    ((ChainSanitizer.clean rules now readings).1.map readingKey ++
      (ChainSanitizer.clean rules now readings).2.map
        (fun q => readingKey q.reading)).Perm
      (readings.map readingKey) ∧
    ∀ q ∈ (ChainSanitizer.clean rules now readings).2, q.reason ≠ "" := by
  by_cases hE : readings.isEmpty
  · have : readings = [] := by
      cases readings with
      | nil => rfl
      | cons a l => exact absurd hE (by simp)
    subst this
    rw [ChainSanitizer.clean, if_pos hE]
    exact ⟨by simp, by simp⟩
  · rw [ChainSanitizer.clean, if_neg hE]
    constructor
    · exact (cleanWalk_perm hkeys now (sortByTime readings) [] none).trans
        ((sortByTime_perm readings).map readingKey)
    · exact cleanWalk_reasons hreason now (sortByTime readings) [] none

/-- Claim C6 witness: the partition statement at a concrete batch with a
duplicate timestamp — one reading accepted, one quarantined with the
non-empty reason "Duplicate timestamp". -/
theorem C6_witness :
    (((ChainSanitizer.clean [] 0 [c6a, c6b]).1.map readingKey ++
      (ChainSanitizer.clean [] 0 [c6a, c6b]).2.map
        (fun q => readingKey q.reading)).Perm
      ([c6a, c6b].map readingKey)) ∧
    ∀ q ∈ (ChainSanitizer.clean [] 0 [c6a, c6b]).2, q.reason ≠ "" :=
  C6_partition [] 0 [c6a, c6b] (by simp) (by simp)

/-- Claim C5: every StandardReading returned by ProcessAndStandardize has a
Timestamp on the epoch-anchored grid (a whole multiple of the interval),
between gridStart = floor(min_ts) and gridEnd = ceil(max_ts) of its device
shard (ceil returning max_ts itself when already on the grid, as gridEndD
computes), and within one device shard outputs are in strictly ascending
Timestamp order. -/
theorem C5_grid (rules : List CleaningRule) (octx : Option IngestContext)
    (interval tolerance now : Nat) (raw : List Reading)
    (hint : 0 < interval) :
    (∀ sr ∈ processAndStandardize rules octx interval tolerance now raw,
      sr.timestamp % interval = 0 ∧
        gridStartD interval (shardOf rules now raw sr.deviceID) ≤
          sr.timestamp ∧
        sr.timestamp ≤
          gridEndD interval (shardOf rules now raw sr.deviceID)) ∧
    (∀ devReadings : List Reading,
      (processShard interval tolerance octx now devReadings).Pairwise
        fun a b => a.timestamp < b.timestamp) := by
  constructor
  · intro sr hsr
    obtain ⟨d, h⟩ := processAndStandardize_mem hsr
    obtain ⟨snap, hsnapmem, hdev⟩ := processShard_deviceID octx now _ sr h
    have hsnapd : snap.deviceInfo.id = d := by
      have := List.mem_filter.mp hsnapmem
      simpa using this.2
    have hd' : sr.deviceID = d := by rw [hdev, hsnapd]
    have hbounds := processShard_timestamp_grid hint octx now _ sr h
    simpa only [shardOf, hd'] using hbounds
  · intro devReadings
    exact processShard_ascending hint octx now devReadings

/-- The single StandardReading produced from the one-reading batch [w5r]
with interval 900 and tolerance 300. -/
def w5sr : StandardReading :=
  { deviceID := "D1", timestamp := 900, valueScaled := 50000,
    scaleFactor := 10000, valueDisplay := 5, quality := "VALID",
    sourceType := "STANDARD", ingestedAt := 0, priority := 100 }

/-- Claim C5 witness: the grid statement at a one-reading batch with the
default 15-minute interval and 5-minute tolerance (in seconds), applied to
the concrete output w5sr (timestamp 1000 snapped to grid point 900). -/
theorem C5_witness :
    (0 : Nat) < 900 ∧
    (w5sr.timestamp % 900 = 0 ∧
      gridStartD 900 (shardOf [] 0 [w5r] w5sr.deviceID) ≤ w5sr.timestamp ∧
      w5sr.timestamp ≤ gridEndD 900 (shardOf [] 0 [w5r] w5sr.deviceID)) :=
  ⟨by decide,
    (C5_grid [] none 900 300 0 [w5r] (by decide)).1 w5sr (by decide)⟩

/-- Claim C7: the Strategy → Priority map is CALIBRATION ↦ 1000,
REALTIME ↦ 100, BATCH_LATE ↦ 50, anything else ↦ 0; with no IngestContext
attached the derived priority is the REALTIME default 100, otherwise it is
the context strategy's priority; and every StandardReading produced by one
ProcessAndStandardize invocation carries exactly that one priority. -/
theorem C7_priority :
    IngestStrategy.getPriority "CALIBRATION" = 1000 ∧
    IngestStrategy.getPriority "REALTIME" = 100 ∧
    IngestStrategy.getPriority "BATCH_LATE" = 50 ∧
    (∀ s : String, s ≠ "CALIBRATION" → s ≠ "REALTIME" → s ≠ "BATCH_LATE" →
      IngestStrategy.getPriority s = 0) ∧
    contextPriority none = 100 ∧
    (∀ info : IngestContext, contextPriority (some info) =
      IngestStrategy.getPriority info.strategy) ∧
    (∀ (octx : Option IngestContext) (rules : List CleaningRule)
      (interval tolerance now : Nat) (raw : List Reading),
      ∀ sr ∈ processAndStandardize rules octx interval tolerance now raw,
        sr.priority = contextPriority octx) := by
  refine ⟨rfl, rfl, rfl, ?_, rfl, fun info => rfl, ?_⟩
  · intro s h1 h2 h3
    simp [IngestStrategy.getPriority, h1, h2, h3]
  · intro octx rules interval tolerance now raw sr hsr
    obtain ⟨d, h⟩ := processAndStandardize_mem hsr
    exact (processShard_fields interval tolerance octx now _ sr h).1

/-- The StandardReading produced from [w5r] under a CALIBRATION context. -/
def w5srCalib : StandardReading :=
  { w5sr with priority := 1000 }

/-- Claim C7 witness: an unknown strategy maps to 0, and a concrete
CALIBRATION invocation stamps priority 1000 on its single output. -/
theorem C7_witness :
    IngestStrategy.getPriority "UNKNOWN" = 0 ∧
    w5srCalib.priority =
      contextPriority (some ⟨"", "CALIBRATION", "", ""⟩) ∧
    (processAndStandardize [] (some ⟨"", "CALIBRATION", "", ""⟩)
        900 300 0 [w5r]).map (fun sr => sr.priority) = [1000] :=
  ⟨C7_priority.2.2.2.1 "UNKNOWN" (by decide) (by decide) (by decide),
    C7_priority.2.2.2.2.2.2 (some ⟨"", "CALIBRATION", "", ""⟩) [] 900 300 0
      [w5r] w5srCalib (by decide),
    by decide⟩

/-- Claim C8: ProcessAndStandardize returns nil standards whenever it
returns a non-nil error (shard cancellation or persistence failure), and it
calls SaveBatch — always with the HIGH_PRIORITY_WINS strategy — exactly when
a repository is configured and the computed standards are non-empty (under
cancellation the invocation errors out before computing standards and makes
no SaveBatch call). -/
theorem C8_error_contract (rules : List CleaningRule)
    (octx : Option IngestContext) (interval tolerance now : Nat)
    (cancelled : Bool) (repo : Option (List StandardReading → Bool))
    (raw : List Reading) :
    ((processFull rules octx interval tolerance now cancelled repo
          raw).2.1 ≠ none →
      (processFull rules octx interval tolerance now cancelled repo
        raw).1 = none) ∧
    (∀ c ∈ (processFull rules octx interval tolerance now cancelled repo
        raw).2.2,
      c.strategy = "HIGH_PRIORITY_WINS" ∧ repo.isSome = true ∧
        c.readings =
          processAndStandardize rules octx interval tolerance now raw ∧
        c.readings ≠ []) ∧
    (¬(cancelled = true ∧ (ChainSanitizer.clean rules now raw).1 ≠ []) →
      ∀ save, repo = some save →
        processAndStandardize rules octx interval tolerance now raw ≠ [] →
        (processFull rules octx interval tolerance now cancelled repo
          raw).2.2 =
          [⟨processAndStandardize rules octx interval tolerance now raw,
            "HIGH_PRIORITY_WINS"⟩]) := by
  by_cases hc : cancelled = true ∧ (ChainSanitizer.clean rules now raw).1 ≠ []
  · have hval : processFull rules octx interval tolerance now cancelled repo
        raw = (none, some .cancelled, []) := by
      simp only [processFull]
      rw [if_pos hc]
    rw [hval]
    exact ⟨fun _ => rfl, by simp, fun hnc => absurd hc hnc⟩
  · rcases repo with _ | save
    · have hval : processFull rules octx interval tolerance now cancelled
          none raw =
          (some (processAndStandardize rules octx interval tolerance now
            raw), none, []) := by
        simp only [processFull]
        rw [if_neg hc]
      rw [hval]
      refine ⟨by simp, by simp, ?_⟩
      intro _ save2 hsome _
      exact absurd hsome (by simp)
    · by_cases hst : processAndStandardize rules octx interval tolerance now
          raw = []
      · have hval : processFull rules octx interval tolerance now cancelled
            (some save) raw =
            (some (processAndStandardize rules octx interval tolerance now
              raw), none, []) := by
          simp only [processFull]
          rw [if_neg hc, if_pos hst]
        rw [hval]
        refine ⟨by simp, by simp, ?_⟩
        intro _ save2 _ hne
        exact absurd hst hne
      · by_cases hsv : save (processAndStandardize rules octx interval
            tolerance now raw) = true
        · have hval : processFull rules octx interval tolerance now cancelled
              (some save) raw =
              (some (processAndStandardize rules octx interval tolerance now
                raw), none,
                [⟨processAndStandardize rules octx interval tolerance now
                  raw, "HIGH_PRIORITY_WINS"⟩]) := by
            simp only [processFull]
            rw [if_neg hc, if_neg hst, if_pos hsv]
          rw [hval]
          refine ⟨by simp, ?_, fun _ _ _ _ => rfl⟩
          intro c hcmem
          have : c = ⟨processAndStandardize rules octx interval tolerance
              now raw, "HIGH_PRIORITY_WINS"⟩ := by
            simpa using hcmem
          subst this
          exact ⟨rfl, rfl, rfl, hst⟩
        · have hval : processFull rules octx interval tolerance now cancelled
              (some save) raw =
              (none, some .persistFailed,
                [⟨processAndStandardize rules octx interval tolerance now
                  raw, "HIGH_PRIORITY_WINS"⟩]) := by
            simp only [processFull]
            rw [if_neg hc, if_neg hst, if_neg hsv]
          rw [hval]
          refine ⟨fun _ => rfl, ?_, fun _ _ _ _ => rfl⟩
          intro c hcmem
          have : c = ⟨processAndStandardize rules octx interval tolerance
              now raw, "HIGH_PRIORITY_WINS"⟩ := by
            simpa using hcmem
          subst this
          exact ⟨rfl, rfl, rfl, hst⟩

/-- Claim C8 witness: the contract applied at a cancelled invocation with a
configured repository — nil standards, a cancellation error and no SaveBatch
call. -/
theorem C8_witness :
    ((processFull [] none 900 300 0 true (some fun _ => true)
          [w5r]).2.1 ≠ none →
      (processFull [] none 900 300 0 true (some fun _ => true)
        [w5r]).1 = none) ∧
    (∀ c ∈ (processFull [] none 900 300 0 true (some fun _ => true)
        [w5r]).2.2,
      c.strategy = "HIGH_PRIORITY_WINS" ∧
        (some fun _ : List StandardReading => true).isSome = true ∧
        c.readings = processAndStandardize [] none 900 300 0 [w5r] ∧
        c.readings ≠ []) ∧
    (¬(true = true ∧ (ChainSanitizer.clean [] 0 [w5r]).1 ≠ []) →
      ∀ save, (some fun _ : List StandardReading => true) = some save →
        processAndStandardize [] none 900 300 0 [w5r] ≠ [] →
        (processFull [] none 900 300 0 true (some fun _ => true)
          [w5r]).2.2 =
          [⟨processAndStandardize [] none 900 300 0 [w5r],
            "HIGH_PRIORITY_WINS"⟩]) :=
  C8_error_contract [] none 900 300 0 true (some fun _ => true) [w5r]

/-- Claim C10: every StandardReading produced by ProcessAndStandardize has
Quality VALID and SourceType STANDARD, unconditionally — also when a
cleaning rule corrected the underlying value. -/
theorem C10_quality (rules : List CleaningRule) (octx : Option IngestContext)
    (interval tolerance now : Nat) (raw : List Reading) :
    ∀ sr ∈ processAndStandardize rules octx interval tolerance now raw,
      sr.quality = "VALID" ∧ sr.sourceType = "STANDARD" := by
  intro sr hsr
  obtain ⟨d, h⟩ := processAndStandardize_mem hsr
  have hf := processShard_fields interval tolerance octx now _ sr h
  exact ⟨hf.2.1, hf.2.2⟩

/-- The StandardReading produced from a reading with value 100 after a
CORRECT-action range rule clamps it to 50. -/
def correctedSr : StandardReading :=
  { deviceID := "D1", timestamp := 900, valueScaled := 500000,
    scaleFactor := 10000, valueDisplay := 50, quality := "VALID",
    sourceType := "STANDARD", ingestedAt := 0, priority := 100 }

/-- Claim C10 witness: a CORRECT-action range rule rewrites the value
(100 clamped to 50), and the resulting StandardReading still carries
Quality VALID and SourceType STANDARD. -/
theorem C10_witness :
    (correctedSr.quality = "VALID" ∧ correctedSr.sourceType = "STANDARD") ∧
    (processAndStandardize [RangeRule.check 0 50 "CORRECT"] none
        900 300 0 [⟨devD1, 1000, 100⟩]).map
      (fun sr => (sr.valueDisplay, sr.quality)) = [(50, "VALID")] :=
  ⟨C10_quality [RangeRule.check 0 50 "CORRECT"] none 900 300 0
      [⟨devD1, 1000, 100⟩] correctedSr (by decide),
    by decide⟩
